import Mathlib

/-!
# Verification of the ap-rewind client-side utilities

Shallow embedding of the repository's JavaScript sources:

* the common module (cookie read/write/delete, `CooldownManager`,
  local-storage helpers `loadUnlockedState` / `saveUnlockedState`, and
  `verifyPassword`), and
* `two/newpage/newpage.js` (the `keys.json` fetch and `checkFinalPassword`).

JavaScript strings are embedded as `List Char` (`JStr`).  The browser cookie
jar is modelled as a list of entries (name, value, expiry in milliseconds);
reading `document.cookie` serialises the entries that have not expired as
`"n1=v1; n2=v2; ..."`, which is what the source's `getCookie` parses.
Numbers are embedded as `Nat`/`Int`; `parseInt` is modelled faithfully
(whitespace skip, optional sign, `0x` prefix, longest digit prefix, `NaN`
as `none`).
-/

/-- JavaScript strings, embedded as lists of characters. -/
abbrev JStr := List Char

/-- The whitespace characters relevant to JavaScript `trim` / `parseInt`
(space, tab, line feed, carriage return, vertical tab, form feed). -/
def isJsWS (c : Char) : Bool :=
  c == ' ' || c == '\t' || c == '\n' || c == '\r' || c == '\x0b' || c == '\x0c'

/-- Decimal digit test (`'0'` through `'9'`). -/
def isDigitChar (c : Char) : Bool :=
  48 ≤ c.toNat && c.toNat ≤ 57

/-- The decimal digit character for a digit value `0 ≤ d ≤ 9`. -/
def dChar : Nat → Char
  | 0 => '0' | 1 => '1' | 2 => '2' | 3 => '3' | 4 => '4'
  | 5 => '5' | 6 => '6' | 7 => '7' | 8 => '8' | _ => '9'

/-- Numeric value of a decimal digit character. -/
def dVal (c : Char) : Nat := c.toNat - 48

/-- Value of a big-endian string of decimal digits. -/
def digitsVal (s : JStr) : Nat :=
  s.foldl (fun a c => a * 10 + dVal c) 0

/-- Little-endian decimal digits of `n`, with explicit fuel so that the
kernel can evaluate it. -/
def natLEAux : Nat → Nat → List Char
  | 0, _ => []
  | f + 1, n => if n < 10 then [dChar n] else dChar (n % 10) :: natLEAux f (n / 10)

/-- The decimal rendering of a (natural) JavaScript number, as produced by
string interpolation such as `` `${value}` ``. -/
def numToStr (n : Nat) : JStr := (natLEAux (n + 1) n).reverse

/-- Longest prefix of decimal digits. -/
def takeDigits : JStr → JStr
  | [] => []
  | c :: cs => if isDigitChar c then c :: takeDigits cs else []

/-- Hexadecimal digit test. -/
def isHexDigitChar (c : Char) : Bool :=
  (48 ≤ c.toNat && c.toNat ≤ 57) || (97 ≤ c.toNat && c.toNat ≤ 102) ||
    (65 ≤ c.toNat && c.toNat ≤ 70)

/-- Numeric value of a hexadecimal digit character. -/
def hexDVal (c : Char) : Nat :=
  if c.toNat ≤ 57 then c.toNat - 48 else if c.toNat ≤ 70 then c.toNat - 55
  else c.toNat - 87

/-- Longest prefix of hexadecimal digits. -/
def takeHexDigits : JStr → JStr
  | [] => []
  | c :: cs => if isHexDigitChar c then c :: takeHexDigits cs else []

/-- Value of a big-endian string of hexadecimal digits. -/
def hexVal (s : JStr) : Nat :=
  s.foldl (fun a c => a * 16 + hexDVal c) 0

/-- Drop leading JavaScript whitespace. -/
def dropWS : JStr → JStr
  | [] => []
  | c :: cs => if isJsWS c then dropWS cs else c :: cs

/-- Does the string start with a `0x` / `0X` hexadecimal marker? -/
def hexMark : JStr → Bool
  | c0 :: c1 :: _ => c0 == '0' && (c1 == 'x' || c1 == 'X')
  | _ => false

/-- The string after a two-character hexadecimal marker. -/
def hexTail : JStr → JStr
  | _ :: _ :: r => r
  | _ => []

/-- `parseInt` after the optional sign: `0x`/`0X` selects base 16,
otherwise the longest decimal digit prefix is read; no digits is `NaN`. -/
def parseIntTail (sg : Int) (rest : JStr) : Option Int :=
  if hexMark rest then
    match takeHexDigits (hexTail rest) with
    | [] => none
    | d :: ds => some (sg * (hexVal (d :: ds) : Int))
  else
    match takeDigits rest with
    | [] => none
    | d :: ds => some (sg * (digitsVal (d :: ds) : Int))

/-- JavaScript `parseInt(s)` (radix argument omitted): skip whitespace,
read an optional sign, then `parseIntTail`; `none` models `NaN`. -/
def parseJSInt (s : JStr) : Option Int :=
  match dropWS s with
  | [] => none
  | c :: cs =>
    if c == '-' then parseIntTail (-1) cs
    else if c == '+' then parseIntTail 1 cs
    else parseIntTail 1 (c :: cs)

/-! ## The browser cookie jar

`document.cookie` is modelled as a jar of entries with a name, a value and
an absolute expiry time in milliseconds; the cookie jar keeps at most one
entry per name.  Reading `document.cookie` at time `now` serialises the
entries whose expiry lies in the future as `"n1=v1; n2=v2"`. -/

/-- One cookie in the browser's jar. -/
structure CookieEntry where
  name : JStr
  value : JStr
  expires : Int
  deriving DecidableEq

/-- Writing `name=value;expires=...` to `document.cookie`: the entry with
that name (if any) is replaced, otherwise a new entry is added. -/
def jarSet (jar : List CookieEntry) (n v : JStr) (exp : Int) : List CookieEntry :=
  jar.filter (fun e => !(e.name == n)) ++ [⟨n, v, exp⟩]

/-- `n=v` rendering of one cookie for the `document.cookie` read string. -/
def entryStr (e : JStr × JStr) : JStr := e.1 ++ '=' :: e.2

/-- Join cookie renderings with `"; "`, as the browser does when
`document.cookie` is read. -/
def joinSemi : List JStr → JStr
  | [] => []
  | [x] => x
  | x :: y :: ys => x ++ ';' :: ' ' :: joinSemi (y :: ys)

/-- The cookies of the jar that are live (not expired) at time `now`. -/
def liveList (now : Nat) (jar : List CookieEntry) : List (JStr × JStr) :=
  (jar.filter fun e => decide ((now : Int) < e.expires)).map fun e => (e.name, e.value)

/-- The string returned by reading `document.cookie` at time `now`. -/
def documentCookie (now : Nat) (jar : List CookieEntry) : JStr :=
  joinSemi ((liveList now jar).map entryStr)

/-! ## Source: cookie helpers (`setCookie`, `getCookie`, `deleteCookie`) -/

/-- Source `setCookie(name, value, seconds)`: the expiry date is
`Date.now() + seconds * 1000` and the assignment adds/replaces the entry
in the jar. -/
def setCookie (jar : List CookieEntry) (now : Nat) (name value : JStr)
    (seconds : Nat) : List CookieEntry :=
  jarSet jar name value ((now : Int) + seconds * 1000)

/-- The exact string the source's `setCookie` assigns to `document.cookie`
(line 17 of the common module), with the `toUTCString` rendering of the
expiry date abstracted as `toUTC`. -/
def setCookieAssignedString (name value : JStr) (now seconds : Nat)
    (toUTC : Nat → JStr) : JStr :=
  name ++ '=' :: (value ++ (";expires=".toList ++
    (toUTC (now + seconds * 1000) ++ ";path=/".toList)))

/-- Source `deleteCookie(name)`: expiry Thu, 01 Jan 1970 00:00:00 UTC,
i.e. millisecond timestamp `0`. -/
def deleteCookie (jar : List CookieEntry) (name : JStr) : List CookieEntry :=
  jarSet jar name [] 0

/-- JavaScript `String.prototype.split(';')` on the character list. -/
def splitChar (sep : Char) : JStr → List JStr
  | [] => [[]]
  | c :: cs =>
    match splitChar sep cs with
    | [] => [[c]]
    | p :: ps => if c == sep then [] :: p :: ps else (c :: p) :: ps

/-- JavaScript `String.prototype.trim()`. -/
def jsTrim (s : JStr) : JStr := (dropWS (dropWS s).reverse).reverse

/-- `a.indexOf(b) === 0`, i.e. `b` starts with `a`. -/
def hasPrefixList : JStr → JStr → Bool
  | [], _ => true
  | _ :: _, [] => false
  | a :: as, b :: bs => a == b && hasPrefixList as bs

/-- The loop of the source's `getCookie`: trim each `';'`-separated part
and return the suffix after `name=` of the first part starting with it. -/
def getCookieLoop (nameEQ : JStr) : List JStr → Option JStr
  | [] => none
  | p :: ps =>
    let c := jsTrim p
    if hasPrefixList nameEQ c then some (c.drop nameEQ.length)
    else getCookieLoop nameEQ ps

/-- Source `getCookie(name)` applied to a `document.cookie` string. -/
def getCookie (doc name : JStr) : Option JStr :=
  getCookieLoop (name ++ ['=']) (splitChar ';' doc)

/-! ## Source: `CooldownManager` -/

/-- The configuration fields of a `CooldownManager` that the verified
functions read. -/
structure CMData where
  cookieName : JStr
  cooldownSeconds : Nat
  buttonDefaultText : JStr
  buttonLoadingText : JStr

/-- Source `CooldownManager.checkCooldown()` at time `now`: read the
cookie; when it is truthy and its `parseInt` lies in the future, report
the remaining seconds rounded up, otherwise report no cooldown.
`((e - now).toNat + 999) / 1000` is `Math.ceil((e - now) / 1000)`. -/
def CooldownManager.checkCooldown (cookieName : JStr) (jar : List CookieEntry)
    (now : Nat) : Bool × Nat :=
  match getCookie (documentCookie now jar) cookieName with
  | none => (false, 0)
  | some s =>
    if s = [] then (false, 0)
    else
      match parseJSInt s with
      | none => (false, 0)
      | some e =>
        if (now : Int) < e then (true, ((e - now).toNat + 999) / 1000)
        else (false, 0)

/-- Source `CooldownManager.setCooldown()`: store
`Date.now() + cooldownSeconds * 1000` (interpolated to its decimal string)
under the cookie name, expiring after `cooldownSeconds` seconds. -/
def CooldownManager.setCooldown (cm : CMData) (jar : List CookieEntry)
    (now : Nat) : List CookieEntry :=
  setCookie jar now cm.cookieName (numToStr (now + cm.cooldownSeconds * 1000))
    cm.cooldownSeconds

/-- Source `CooldownManager.clearCooldown()`. -/
def CooldownManager.clearCooldown (cm : CMData) (jar : List CookieEntry) :
    List CookieEntry :=
  deleteCookie jar cm.cookieName

/-! ## Source: `verifyPassword` and the UI state it manipulates -/

/-- The page state touched by `verifyPassword`: the cookie jar, the frozen
clock, the DOM fields the manager drives, and a flag recording whether the
`onSuccess` callback was invoked during the call. -/
structure VState where
  jar : List CookieEntry
  now : Nat
  inputValue : JStr
  errorText : JStr
  buttonDisabled : Bool
  inputDisabled : Bool
  cooldownActive : Bool
  buttonText : JStr
  timerScheduled : Bool
  successCalled : Bool
  deriving DecidableEq

/-- Source `CooldownManager.setVerifyingState()`. -/
def setVerifyingState (cm : CMData) (st : VState) : VState :=
  { st with buttonDisabled := true, inputDisabled := true,
            buttonText := cm.buttonLoadingText, errorText := [],
            cooldownActive := false, timerScheduled := false }

/-- Source `CooldownManager.clearCooldownState(forceClearMessage)`. -/
def clearCooldownState (cm : CMData) (st : VState) (forceClearMessage : Bool) :
    VState :=
  { st with timerScheduled := false, cooldownActive := false,
            inputDisabled := false, buttonDisabled := false,
            buttonText := cm.buttonDefaultText,
            errorText := if forceClearMessage then [] else st.errorText }

/-- Source `CooldownManager.startFrontendCooldownTimers(remaining)`:
disable the controls, mark the cooldown active, run the first
`updateTimerDisplay` tick synchronously, and schedule the timers. -/
def startFrontendCooldownTimers (remaining : Nat) (st : VState) : VState :=
  { st with inputDisabled := true, buttonDisabled := true,
            cooldownActive := true, buttonText := "请等待...".toList,
            errorText :=
              if remaining > 0 then
                "密码错误！请等待 ".toList ++ numToStr remaining ++ " 秒...".toList
              else "请稍候...".toList,
            timerScheduled := true }

/-- Source `verifyPassword(inputPassword, correctPassword, cooldownManager,
onSuccess)`; `successCalled` records that the `onSuccess()` call site was
reached. -/
def verifyPassword (input correct : JStr) (cm : CMData) (st : VState) : VState :=
  if input = [] then
    { st with errorText := "请输入密钥。".toList,
              buttonDisabled := false, inputDisabled := false }
  else
    let st1 := setVerifyingState cm st
    if input = correct then
      let st2 := clearCooldownState cm st1 true
      let st3 := { st2 with jar := CooldownManager.clearCooldown cm st2.jar }
      { st3 with successCalled := true }
    else
      let st2 := { st1 with inputValue := [] }
      let st3 := { st2 with jar := CooldownManager.setCooldown cm st2.jar st2.now }
      let status := CooldownManager.checkCooldown cm.cookieName st3.jar st3.now
      let st4 := { st3 with errorText :=
        "密码错误！请等待 ".toList ++ numToStr status.2 ++ " 秒...".toList }
      startFrontendCooldownTimers status.2 st4

/-! ## Source: local-storage helpers -/

/-- Source `loadUnlockedState(key, defaultValue)`.  The store models
`localStorage` (`getItem` returns `none` for a missing key); `parseJson`
models `JSON.parse`, with `none` for a parse error.  A falsy (`""`) stored
string skips the parse; a caught parse error falls through to the default,
so the function is total. -/
def loadUnlockedState {J : Type} (parseJson : JStr → Option J)
    (store : JStr → Option JStr) (key : JStr) (defaultValue : J) : J :=
  match store key with
  | none => defaultValue
  | some saved =>
    if saved = [] then defaultValue
    else
      match parseJson saved with
      | some v => v
      | none => defaultValue

/-- Source `saveUnlockedState(key, state)`: `localStorage.setItem(key,
JSON.stringify(state))`, returning the updated store. -/
def saveUnlockedState {J : Type} (stringifyJson : J → JStr)
    (store : JStr → Option JStr) (key : JStr) (state : J) :
    JStr → Option JStr :=
  fun k => if k = key then some (stringifyJson state) else store k

/-! ## Source: `two/newpage/newpage.js` -/

/-- The module state of `newpage.js`: the `finalKey` variable, the URLs
fetched, and the console error log. -/
structure NewpageState where
  finalKey : Option JStr
  fetchedUrls : List JStr
  errorLog : List JStr
  deriving DecidableEq

/-- Running the top level of `newpage.js` with the outcome of its single
`fetch('../keys.json')`: on success `finalKey` is assigned `data.finalKey`
(absent field modelled as `none`); on failure (network or JSON error) the
catch handler only logs. -/
def runNewpageScript (result : Except JStr (Option JStr)) : NewpageState :=
  let st0 : NewpageState :=
    { finalKey := none, fetchedUrls := ["../keys.json".toList], errorLog := [] }
  match result with
  | .ok payload => { st0 with finalKey := payload }
  | .error e => { st0 with errorLog := st0.errorLog ++ ["加载 keys.json 出错:".toList ++ e] }

/-- The observable outcome of `checkFinalPassword`. -/
structure FinalCheckResult where
  successBranch : Bool
  navScheduledTo : Option JStr
  inputText : JStr
  inputDisabled : Bool
  deriving DecidableEq

/-- JavaScript strict equality between a string and a possibly-undefined
string variable: `s === undefined` is `false` for every string `s`. -/
def jsStrictEqStr (s : JStr) (v : Option JStr) : Bool :=
  match v with
  | some k => s == k
  | none => false

/-- Source `checkFinalPassword()` on the entered string and the current
`finalKey`. -/
def checkFinalPassword (enteredKey : JStr) (finalKey : Option JStr) :
    FinalCheckResult :=
  if jsStrictEqStr enteredKey finalKey then
    { successBranch := true, navScheduledTo := some "/two/finalpage".toList,
      inputText := "密钥正确".toList, inputDisabled := true }
  else
    { successBranch := false, navScheduledTo := none,
      inputText := "密钥错误".toList, inputDisabled := false }

/-! ## Well-formedness of the cookie jar -/

/-- The head character (if any) is not whitespace. -/
def leadOK : JStr → Bool
  | [] => true
  | c :: _ => !isJsWS c

/-- The last character (if any) is not whitespace. -/
def lastOK (s : JStr) : Bool := leadOK s.reverse

/-- A well-formed cookie name: no `';'`, no `'='`, no leading whitespace. -/
def nameOK (s : JStr) : Bool :=
  leadOK s && s.all fun c => !(c == ';') && !(c == '=')

/-- A well-formed jar entry: well-formed name and a value free of `';'`. -/
def EntryWF (e : CookieEntry) : Bool :=
  nameOK e.name && e.value.all fun c => !(c == ';')

/-- A well-formed jar: every entry well-formed, names pairwise distinct. -/
def JarWF (jar : List CookieEntry) : Prop :=
  (∀ e ∈ jar, EntryWF e = true) ∧ (jar.map (·.name)).Nodup

/-- Trailing-whitespace trim. -/
def trimR (v : JStr) : JStr := (dropWS v.reverse).reverse

/-- The conditions on an entry `(n, v)` of the serialised cookie string
under which the `getCookie` loop is guaranteed to skip it when looking up
`name`: well-behaved name, `';'`-free value, and a different name. -/
def EntryOKfor (name : JStr) (e : JStr × JStr) : Prop :=
  leadOK e.1 = true ∧ ';' ∉ e.1 ∧ '=' ∉ e.1 ∧ ';' ∉ e.2 ∧ e.1 ≠ name

/-- The cookie string format stated in §6 of the spec (`name=value;
expires=<UTC date>; path=/`, with a space after each `';'`), written from
the spec's words for comparison with the source. -/
def cookieFormatSpec (name value utcDate : JStr) : JStr :=
  name ++ '=' :: (value ++ ("; expires=".toList ++ (utcDate ++ "; path=/".toList)))

/-- The cookie string format the source actually produces: identical to
the spec's but with no space after the `';'` separators. -/
def cookieFormatNoSpace (name value utcDate : JStr) : JStr :=
  name ++ '=' :: (value ++ (";expires=".toList ++ (utcDate ++ ";path=/".toList)))

/-- A concrete cooldown manager configuration for closed evaluations. -/
def cmX : CMData := ⟨"cd".toList, 3, "验证".toList, "验证中...".toList⟩

/-- A concrete page state with an empty cookie jar. -/
def stEmpty : VState := ⟨[], 1000, [], [], false, false, false, [], false, false⟩

/-- A concrete page state whose jar holds an active cooldown cookie
(expiry timestamp 5000, read at time 1000). -/
def stCool : VState :=
  ⟨[⟨"cd".toList, numToStr 5000, 10000⟩], 1000, [], [], false, false, false,
    [], false, false⟩

/-! ## Lemmas: decimal rendering and `parseInt` -/

theorem dChar_digit : ∀ n, n < 10 → isDigitChar (dChar n) = true := by decide

theorem dVal_dChar : ∀ n, n < 10 → dVal (dChar n) = n := by decide

theorem digitsVal_append_singleton (xs : JStr) (c : Char) :
    digitsVal (xs ++ [c]) = digitsVal xs * 10 + dVal c := by
  simp [digitsVal, List.foldl_append]

theorem natLEAux_spec : ∀ f n, n < f →
    natLEAux f n ≠ [] ∧ (∀ c ∈ natLEAux f n, isDigitChar c = true) ∧
      digitsVal (natLEAux f n).reverse = n := by
  intro f
  induction f with
  | zero => intro n hn; omega
  | succ f ih =>
    intro n hn
    by_cases h10 : n < 10
    · refine ⟨by simp [natLEAux, h10], ?_, ?_⟩
      · intro c hc
        simp [natLEAux, h10] at hc
        subst hc
        exact dChar_digit n h10
      · simp [natLEAux, h10, digitsVal, dVal_dChar n h10]
    · have hrec : n / 10 < f := by omega
      obtain ⟨hne, hdig, hval⟩ := ih (n / 10) hrec
      refine ⟨by simp [natLEAux, h10], ?_, ?_⟩
      · intro c hc
        simp only [natLEAux, if_neg h10, List.mem_cons] at hc
        rcases hc with rfl | hc
        · exact dChar_digit _ (Nat.mod_lt n (by omega))
        · exact hdig c hc
      · simp only [natLEAux, if_neg h10, List.reverse_cons,
          digitsVal_append_singleton, hval, dVal_dChar _ (Nat.mod_lt n (by omega))]
        omega

theorem numToStr_ne_nil (n : Nat) : numToStr n ≠ [] := by
  have h := (natLEAux_spec (n + 1) n (by omega)).1
  simp only [numToStr, ne_eq, List.reverse_eq_nil_iff]
  exact h

theorem numToStr_digits (n : Nat) : ∀ c ∈ numToStr n, isDigitChar c = true := by
  intro c hc
  exact (natLEAux_spec (n + 1) n (by omega)).2.1 c (List.mem_reverse.mp hc)

theorem digitsVal_numToStr (n : Nat) : digitsVal (numToStr n) = n :=
  (natLEAux_spec (n + 1) n (by omega)).2.2

theorem digit_not_ws {c : Char} (h : isDigitChar c = true) : isJsWS c = false := by
  cases hw : isJsWS c
  · rfl
  · exfalso
    simp only [isJsWS, Bool.or_eq_true, beq_iff_eq] at hw
    rcases hw with ((((rfl | rfl) | rfl) | rfl) | rfl) | rfl <;>
      exact absurd h (by decide)

theorem digit_ne {c d : Char} (h : isDigitChar c = true)
    (hd : isDigitChar d = false) : c ≠ d := by
  rintro rfl
  rw [h] at hd
  exact absurd hd (by decide)

theorem takeDigits_all {s : JStr} (h : ∀ c ∈ s, isDigitChar c = true) :
    takeDigits s = s := by
  induction s with
  | nil => rfl
  | cons c cs ih =>
    simp only [takeDigits, h c (by simp), if_true]
    rw [ih fun d hd => h d (by simp [hd])]

theorem dropWS_of_leadOK {s : JStr} (h : leadOK s = true) : dropWS s = s := by
  cases s with
  | nil => rfl
  | cons c cs =>
    simp only [leadOK, Bool.not_eq_eq_eq_not, Bool.not_true] at h
    simp [dropWS, h]

theorem hexMark_digits {c : Char} {cs : JStr}
    (h : ∀ d ∈ c :: cs, isDigitChar d = true) : hexMark (c :: cs) = false := by
  cases cs with
  | nil => rfl
  | cons c1 r =>
    have h1 : isDigitChar c1 = true := h c1 (by simp)
    have hx : c1 ≠ 'x' := digit_ne h1 (by decide)
    have hX : c1 ≠ 'X' := digit_ne h1 (by decide)
    simp [hexMark, hx, hX]

theorem parseJSInt_numToStr (m : Nat) : parseJSInt (numToStr m) = some (m : Int) := by
  cases hs : numToStr m with
  | nil => exact absurd hs (numToStr_ne_nil m)
  | cons c cs =>
    have hall : ∀ d ∈ c :: cs, isDigitChar d = true := by
      rw [← hs]; exact numToStr_digits m
    have hc : isDigitChar c = true := hall c (by simp)
    have hlead : leadOK (c :: cs) = true := by simp [leadOK, digit_not_ws hc]
    have hmin : c ≠ '-' := digit_ne hc (by decide)
    have hplus : c ≠ '+' := digit_ne hc (by decide)
    have hval : digitsVal (c :: cs) = m := by rw [← hs, digitsVal_numToStr]
    simp only [parseJSInt, dropWS_of_leadOK hlead]
    simp [hmin, hplus, parseIntTail, hexMark_digits hall, takeDigits_all hall,
      hval]

/-! ## Lemmas: `trim`, `split` and prefix matching -/

theorem dropWS_append (a b : JStr) :
    dropWS (a ++ b) = if dropWS a = [] then dropWS b else dropWS a ++ b := by
  induction a with
  | nil => simp [dropWS]
  | cons c a ih =>
    rw [List.cons_append]
    by_cases hc : isJsWS c = true
    · rw [show dropWS (c :: (a ++ b)) = dropWS (a ++ b) from by simp [dropWS, hc],
        show dropWS (c :: a) = dropWS a from by simp [dropWS, hc], ih]
    · simp only [Bool.not_eq_true] at hc
      rw [show dropWS (c :: (a ++ b)) = c :: (a ++ b) from by simp [dropWS, hc],
        show dropWS (c :: a) = c :: a from by simp [dropWS, hc]]
      simp

theorem dropWS_append_eqCons (a b : JStr) :
    dropWS (a ++ '=' :: b) = dropWS a ++ '=' :: b := by
  rw [dropWS_append]
  split
  · rename_i h
    rw [h]
    rfl
  · rfl

theorem jsTrim_entry {n : JStr} (v : JStr) (hlead : leadOK n = true) :
    jsTrim (n ++ '=' :: v) = n ++ '=' :: trimR v := by
  have h1 : dropWS (n ++ '=' :: v) = n ++ '=' :: v := by
    rw [dropWS_append_eqCons, dropWS_of_leadOK hlead]
  have h2 : (n ++ '=' :: v).reverse = v.reverse ++ '=' :: n.reverse := by
    simp
  rw [jsTrim, h1, h2, dropWS_append_eqCons]
  simp [trimR]

theorem jsTrim_entry_sp {n : JStr} (v : JStr) (hlead : leadOK n = true) :
    jsTrim (' ' :: (n ++ '=' :: v)) = n ++ '=' :: trimR v := by
  have h0 : dropWS (' ' :: (n ++ '=' :: v)) = dropWS (n ++ '=' :: v) := rfl
  have h1 : dropWS (n ++ '=' :: v) = n ++ '=' :: v := by
    rw [dropWS_append_eqCons, dropWS_of_leadOK hlead]
  have h2 : (n ++ '=' :: v).reverse = v.reverse ++ '=' :: n.reverse := by
    simp
  rw [jsTrim, h0, h1, h2, dropWS_append_eqCons]
  simp [trimR]

theorem trimR_eq {v : JStr} (h : lastOK v = true) : trimR v = v := by
  rw [trimR, dropWS_of_leadOK h, List.reverse_reverse]

theorem lastOK_of_digits {s : JStr} (hne : s ≠ [])
    (h : ∀ c ∈ s, isDigitChar c = true) : lastOK s = true := by
  rw [lastOK]
  cases hr : s.reverse with
  | nil => exact absurd (by simpa using hr) hne
  | cons c cs =>
    have hc : c ∈ s := by
      rw [← List.mem_reverse, hr]; simp
    simp [leadOK, digit_not_ws (h c hc)]

theorem splitChar_ne_nil (sep : Char) (l : JStr) : splitChar sep l ≠ [] := by
  induction l with
  | nil => simp [splitChar]
  | cons c cs ih =>
    simp only [splitChar]
    cases h : splitChar sep cs with
    | nil => simp
    | cons p ps => by_cases hc : c == sep <;> simp [hc]

theorem splitChar_no_sep {sep : Char} {l : JStr} (h : sep ∉ l) :
    splitChar sep l = [l] := by
  induction l with
  | nil => rfl
  | cons c cs ih =>
    have hc : (c == sep) = false := by
      have hne : c ≠ sep := by
        intro he
        subst he
        exact h (List.mem_cons_self c cs)
      simpa using hne
    have hcs : sep ∉ cs := fun hm => h (by simp [hm])
    simp [splitChar, ih hcs, hc]

theorem splitChar_append {sep : Char} {a : JStr} (b : JStr) (h : sep ∉ a) :
    splitChar sep (a ++ sep :: b) = a :: splitChar sep b := by
  induction a with
  | nil =>
    simp only [List.nil_append, splitChar]
    cases hb : splitChar sep b with
    | nil => exact absurd hb (splitChar_ne_nil sep b)
    | cons p ps => simp
  | cons c a ih =>
    have hc : (c == sep) = false := by
      have hne : c ≠ sep := by
        intro he
        subst he
        exact h (List.mem_cons_self c a)
      simpa using hne
    have ha : sep ∉ a := fun hm => h (by simp [hm])
    simp only [List.cons_append, splitChar, List.append_eq]
    rw [ih ha]
    simp [hc]

theorem split_join : ∀ (xs : List JStr) (x : JStr), ';' ∉ x →
    (∀ y ∈ xs, ';' ∉ y) →
    splitChar ';' (joinSemi (x :: xs)) = x :: xs.map (fun y => ' ' :: y) := by
  intro xs
  induction xs with
  | nil =>
    intro x hx _
    simp [joinSemi, splitChar_no_sep hx]
  | cons y ys ih =>
    intro x hx hys
    have hy : ';' ∉ y := hys y (by simp)
    have hys2 : ∀ z ∈ ys, ';' ∉ z := fun z hz => hys z (by simp [hz])
    have hrec := ih y hy hys2
    show splitChar ';' (x ++ ';' :: ' ' :: joinSemi (y :: ys)) = _
    rw [splitChar_append _ hx]
    simp only [splitChar, hrec]
    simp

theorem hasPrefixList_self_append (a w : JStr) :
    hasPrefixList (a ++ ['=']) (a ++ '=' :: w) = true := by
  induction a with
  | nil => simp [hasPrefixList]
  | cons c a ih => simp [hasPrefixList, ih]

theorem hasPrefixList_names : ∀ (a b : JStr) (w : JStr),
    hasPrefixList (a ++ ['=']) (b ++ '=' :: w) = true →
    '=' ∉ a → '=' ∉ b → a = b := by
  intro a
  induction a with
  | nil =>
    intro b w h _ hb
    cases b with
    | nil => rfl
    | cons d b2 =>
      simp only [List.nil_append, List.cons_append, hasPrefixList,
        Bool.and_eq_true, beq_iff_eq] at h
      exact absurd h.1.symm (fun he => hb (by simp [he]))
  | cons c a ih =>
    intro b w h ha hb
    cases b with
    | nil =>
      simp only [List.cons_append, List.nil_append, hasPrefixList,
        Bool.and_eq_true, beq_iff_eq] at h
      exact absurd h.1 (fun he => ha (by simp [he]))
    | cons d b2 =>
      simp only [List.cons_append, hasPrefixList, Bool.and_eq_true,
        beq_iff_eq] at h
      have ha2 : '=' ∉ a := fun hm => ha (by simp [hm])
      have hb2 : '=' ∉ b2 := fun hm => hb (by simp [hm])
      rw [h.1, ih b2 w h.2 ha2 hb2]

theorem hasPrefixList_nil_false (a : JStr) (c : Char) :
    hasPrefixList (a ++ [c]) [] = false := by
  cases a <;> rfl

theorem drop_after_eq (a w : JStr) :
    List.drop (a ++ ['=']).length (a ++ '=' :: w) = w := by
  have h : a ++ '=' :: w = (a ++ ['=']) ++ w := by simp
  rw [h, List.drop_left]

/-! ## Lemmas: `getCookie` over the serialised jar -/

theorem nameOK_spec {s : JStr} (h : nameOK s = true) :
    leadOK s = true ∧ ';' ∉ s ∧ '=' ∉ s := by
  simp only [nameOK, Bool.and_eq_true, List.all_eq_true] at h
  obtain ⟨hl, hall⟩ := h
  exact ⟨hl, fun hm => absurd (hall _ hm) (by decide),
    fun hm => absurd (hall _ hm) (by decide)⟩

theorem entryStr_no_semi {e : JStr × JStr} (h1 : ';' ∉ e.1) (h2 : ';' ∉ e.2) :
    ';' ∉ entryStr e := by
  intro hm
  simp only [entryStr, List.mem_append, List.mem_cons] at hm
  rcases hm with hm | hm | hm
  · exact h1 hm
  · exact absurd hm (by decide)
  · exact h2 hm

theorem getCookieLoop_skip {name : JStr} (hn : '=' ∉ name) :
    ∀ es : List (JStr × JStr), (∀ e ∈ es, EntryOKfor name e) →
    getCookieLoop (name ++ ['=']) (es.map fun e => ' ' :: entryStr e) = none := by
  intro es
  induction es with
  | nil => intro _; rfl
  | cons e rest ih =>
    intro h
    obtain ⟨hlead, hsn, hen, hsv, hne⟩ := h e (by simp)
    have htrim : jsTrim (' ' :: entryStr e) = e.1 ++ '=' :: trimR e.2 :=
      jsTrim_entry_sp e.2 hlead
    have hpf : hasPrefixList (name ++ ['=']) (e.1 ++ '=' :: trimR e.2) = false := by
      cases hb : hasPrefixList (name ++ ['=']) (e.1 ++ '=' :: trimR e.2)
      · rfl
      · exact absurd (hasPrefixList_names name e.1 _ hb hn hen).symm hne
    simp only [List.map_cons, getCookieLoop, htrim, hpf, Bool.false_eq_true,
      if_false]
    exact ih fun e2 he2 => h e2 (by simp [he2])

theorem getCookieLoop_found {name v : JStr} (post : List (JStr × JStr))
    (hleadn : leadOK name = true) (hn : '=' ∉ name) (hlast : lastOK v = true) :
    ∀ pre : List (JStr × JStr), (∀ e ∈ pre, EntryOKfor name e) →
    getCookieLoop (name ++ ['='])
      ((pre ++ (name, v) :: post).map fun e => ' ' :: entryStr e) = some v := by
  intro pre
  induction pre with
  | nil =>
    intro _
    have htrim : jsTrim (' ' :: entryStr (name, v)) = name ++ '=' :: v := by
      have h0 : entryStr (name, v) = name ++ '=' :: v := rfl
      rw [h0, jsTrim_entry_sp v hleadn, trimR_eq hlast]
    simp only [List.nil_append, List.map_cons, getCookieLoop, htrim,
      hasPrefixList_self_append, if_true]
    rw [drop_after_eq]
  | cons e rest ih =>
    intro h
    obtain ⟨hlead, hsn, hen, hsv, hne⟩ := h e (by simp)
    have htrim : jsTrim (' ' :: entryStr e) = e.1 ++ '=' :: trimR e.2 :=
      jsTrim_entry_sp e.2 hlead
    have hpf : hasPrefixList (name ++ ['=']) (e.1 ++ '=' :: trimR e.2) = false := by
      cases hb : hasPrefixList (name ++ ['=']) (e.1 ++ '=' :: trimR e.2)
      · rfl
      · exact absurd (hasPrefixList_names name e.1 _ hb hn hen).symm hne
    simp only [List.cons_append, List.map_cons, getCookieLoop, htrim, hpf,
      Bool.false_eq_true, if_false]
    exact ih fun e2 he2 => h e2 (by simp [he2])

theorem getCookie_entries_found (name v : JStr) (pre post : List (JStr × JStr))
    (hpre : ∀ e ∈ pre, EntryOKfor name e)
    (hpost : ∀ e ∈ post, ';' ∉ e.1 ∧ ';' ∉ e.2)
    (hname : nameOK name = true) (hsv : ';' ∉ v) (hlast : lastOK v = true) :
    getCookie (joinSemi ((pre ++ (name, v) :: post).map entryStr)) name = some v := by
  obtain ⟨hleadn, hsn, hen⟩ := nameOK_spec hname
  have hallsemi : ∀ p ∈ (pre ++ (name, v) :: post).map entryStr, ';' ∉ p := by
    intro p hp
    simp only [List.mem_map] at hp
    obtain ⟨e, he, rfl⟩ := hp
    simp only [List.mem_append, List.mem_cons] at he
    rcases he with he | he | he
    · obtain ⟨_, h1, _, h2, _⟩ := hpre e he
      exact entryStr_no_semi h1 h2
    · subst he
      exact entryStr_no_semi hsn hsv
    · exact entryStr_no_semi (hpost e he).1 (hpost e he).2
  cases pre with
  | nil =>
    simp only [List.nil_append, List.map_cons] at hallsemi ⊢
    rw [getCookie, split_join _ _ (hallsemi _ (List.mem_cons_self _ _))
      (fun y hy => hallsemi y (List.mem_cons_of_mem _ hy))]
    have htrim : jsTrim (entryStr (name, v)) = name ++ '=' :: v := by
      rw [show entryStr (name, v) = name ++ '=' :: v from rfl,
        jsTrim_entry v hleadn, trimR_eq hlast]
    simp only [getCookieLoop, htrim, hasPrefixList_self_append, if_true]
    rw [drop_after_eq]
  | cons p pre2 =>
    simp only [List.cons_append, List.map_cons] at hallsemi ⊢
    rw [getCookie, split_join _ _ (hallsemi _ (List.mem_cons_self _ _))
      (fun y hy => hallsemi y (List.mem_cons_of_mem _ hy))]
    obtain ⟨hlead, hs1, he1, hs2, hne⟩ := hpre p (by simp)
    have htrim : jsTrim (entryStr p) = p.1 ++ '=' :: trimR p.2 :=
      jsTrim_entry p.2 hlead
    have hpf : hasPrefixList (name ++ ['=']) (p.1 ++ '=' :: trimR p.2) = false := by
      cases hb : hasPrefixList (name ++ ['=']) (p.1 ++ '=' :: trimR p.2)
      · rfl
      · exact absurd (hasPrefixList_names name p.1 _ hb hen he1).symm hne
    simp only [getCookieLoop, htrim, hpf, Bool.false_eq_true, if_false]
    rw [List.map_map]
    have hcomp : ((fun p => ' ' :: p) ∘ entryStr) = fun e => ' ' :: entryStr e := rfl
    rw [hcomp]
    exact getCookieLoop_found post hleadn hen hlast pre2
      fun e2 he2 => hpre e2 (by simp [he2])

theorem getCookie_entries_none (name : JStr) (es : List (JStr × JStr))
    (hes : ∀ e ∈ es, EntryOKfor name e) (hname : nameOK name = true) :
    getCookie (joinSemi (es.map entryStr)) name = none := by
  obtain ⟨hleadn, hsn, hen⟩ := nameOK_spec hname
  cases es with
  | nil =>
    simp [getCookie, joinSemi, splitChar, getCookieLoop, jsTrim, dropWS,
      hasPrefixList_nil_false]
  | cons e rest =>
    have hallsemi : ∀ p ∈ (e :: rest).map entryStr, ';' ∉ p := by
      intro p hp
      simp only [List.mem_map] at hp
      obtain ⟨e2, he2, rfl⟩ := hp
      obtain ⟨_, h1, _, h2, _⟩ := hes e2 he2
      exact entryStr_no_semi h1 h2
    simp only [List.map_cons] at hallsemi ⊢
    rw [getCookie, split_join _ _ (hallsemi _ (List.mem_cons_self _ _))
      (fun y hy => hallsemi y (List.mem_cons_of_mem _ hy))]
    obtain ⟨hlead, hs1, he1, hs2, hne⟩ := hes e (by simp)
    have htrim : jsTrim (entryStr e) = e.1 ++ '=' :: trimR e.2 :=
      jsTrim_entry e.2 hlead
    have hpf : hasPrefixList (name ++ ['=']) (e.1 ++ '=' :: trimR e.2) = false := by
      cases hb : hasPrefixList (name ++ ['=']) (e.1 ++ '=' :: trimR e.2)
      · rfl
      · exact absurd (hasPrefixList_names name e.1 _ hb hen he1).symm hne
    simp only [getCookieLoop, htrim, hpf, Bool.false_eq_true, if_false]
    rw [List.map_map]
    have hcomp : ((fun p => ' ' :: p) ∘ entryStr) = fun e => ' ' :: entryStr e := rfl
    rw [hcomp]
    exact getCookieLoop_skip hen rest fun e2 he2 => hes e2 (by simp [he2])

/-! ## Lemmas: the jar after `setCookie` / `deleteCookie` -/

theorem liveList_append (now : Nat) (a b : List CookieEntry) :
    liveList now (a ++ b) = liveList now a ++ liveList now b := by
  simp [liveList, List.filter_append]

theorem liveList_mem {now : Nat} {jar : List CookieEntry} {p : JStr × JStr}
    (hp : p ∈ liveList now jar) : ∃ e ∈ jar, p = (e.name, e.value) := by
  simp only [liveList, List.mem_map, List.mem_filter] at hp
  obtain ⟨e, ⟨he, _⟩, rfl⟩ := hp
  exact ⟨e, he, rfl⟩

theorem EntryWF_OKfor {e : CookieEntry} {n : JStr} (h : EntryWF e = true)
    (hne : e.name ≠ n) : EntryOKfor n (e.name, e.value) := by
  simp only [EntryWF, Bool.and_eq_true] at h
  obtain ⟨hnm, hv⟩ := h
  obtain ⟨hl, hs, he2⟩ := nameOK_spec hnm
  refine ⟨hl, hs, he2, fun hm => ?_, hne⟩
  exact absurd (List.all_eq_true.mp hv _ hm) (by decide)

theorem jarSet_others_OKfor {jar : List CookieEntry} {n : JStr} {now : Nat}
    (hwf : ∀ e ∈ jar, EntryWF e = true) :
    ∀ p ∈ liveList now (jar.filter fun e => !(e.name == n)), EntryOKfor n p := by
  intro p hp
  obtain ⟨e, he, rfl⟩ := liveList_mem hp
  have hej : e ∈ jar := (List.mem_filter.mp he).1
  have hne : e.name ≠ n := by
    have h2 := (List.mem_filter.mp he).2
    simpa using h2
  exact EntryWF_OKfor (hwf e hej) hne

theorem getCookie_setCookie (jar : List CookieEntry) (now : Nat)
    (name value : JStr) (seconds : Nat)
    (hwf : ∀ e ∈ jar, EntryWF e = true) (hname : nameOK name = true)
    (hsv : ';' ∉ value) (hlast : lastOK value = true) (hsec : 0 < seconds) :
    getCookie (documentCookie now (setCookie jar now name value seconds)) name
      = some value := by
  have hexp : (now : Int) < (now : Int) + (seconds : Int) * 1000 := by omega
  have hlive : liveList now (setCookie jar now name value seconds)
      = liveList now (jar.filter fun e => !(e.name == name)) ++ [(name, value)] := by
    rw [setCookie, jarSet, liveList_append]
    congr 1
    simp [liveList, hexp]
  rw [documentCookie, hlive]
  exact getCookie_entries_found name value _ [] (jarSet_others_OKfor hwf)
    (by simp) hname hsv hlast

theorem getCookie_deleteCookie (jar : List CookieEntry) (now : Nat) (name : JStr)
    (hwf : ∀ e ∈ jar, EntryWF e = true) (hname : nameOK name = true) :
    getCookie (documentCookie now (deleteCookie jar name)) name = none := by
  have hdead : ¬((now : Int) < 0) := by omega
  have hlive : liveList now (deleteCookie jar name)
      = liveList now (jar.filter fun e => !(e.name == name)) := by
    rw [deleteCookie, jarSet, liveList_append]
    simp [liveList, hdead]
  rw [documentCookie, hlive]
  exact getCookie_entries_none name _ (jarSet_others_OKfor hwf) hname

theorem getCookie_absent (jar : List CookieEntry) (now : Nat) (name : JStr)
    (hwf : ∀ e ∈ jar, EntryWF e = true) (hname : nameOK name = true)
    (habs : ∀ e ∈ jar, e.name ≠ name) :
    getCookie (documentCookie now jar) name = none := by
  rw [documentCookie]
  apply getCookie_entries_none name _ _ hname
  intro p hp
  obtain ⟨e, he, rfl⟩ := liveList_mem hp
  exact EntryWF_OKfor (hwf e he) (habs e he)

/-! ## Lemmas: `checkCooldown` after the manager's own writes -/

theorem checkCooldown_setCooldown (cm : CMData) (jar : List CookieEntry)
    (now : Nat) (hwf : ∀ e ∈ jar, EntryWF e = true)
    (hname : nameOK cm.cookieName = true) (hsec : 0 < cm.cooldownSeconds) :
    CooldownManager.checkCooldown cm.cookieName
      (CooldownManager.setCooldown cm jar now) now = (true, cm.cooldownSeconds) := by
  have hv := numToStr_digits (now + cm.cooldownSeconds * 1000)
  have hne := numToStr_ne_nil (now + cm.cooldownSeconds * 1000)
  have hsv : ';' ∉ numToStr (now + cm.cooldownSeconds * 1000) :=
    fun hm => absurd (hv _ hm) (by decide)
  have hget : getCookie
      (documentCookie now (CooldownManager.setCooldown cm jar now)) cm.cookieName
      = some (numToStr (now + cm.cooldownSeconds * 1000)) := by
    rw [CooldownManager.setCooldown]
    exact getCookie_setCookie jar now cm.cookieName _ cm.cooldownSeconds hwf hname
      hsv (lastOK_of_digits hne hv) hsec
  have hlt : (now : Int) < ((now + cm.cooldownSeconds * 1000 : Nat) : Int) := by
    push_cast
    omega
  simp only [CooldownManager.checkCooldown, hget, if_neg hne,
    parseJSInt_numToStr, if_pos hlt]
  have harith : ((((now + cm.cooldownSeconds * 1000 : Nat) : Int) - (now : Int)).toNat
      + 999) / 1000 = cm.cooldownSeconds := by omega
  rw [harith]

theorem checkCooldown_clearCooldown (cm : CMData) (jar : List CookieEntry)
    (now : Nat) (hwf : ∀ e ∈ jar, EntryWF e = true)
    (hname : nameOK cm.cookieName = true) :
    CooldownManager.checkCooldown cm.cookieName
      (CooldownManager.clearCooldown cm jar) now = (false, 0) := by
  have hget : getCookie
      (documentCookie now (CooldownManager.clearCooldown cm jar)) cm.cookieName
      = none := by
    rw [CooldownManager.clearCooldown]
    exact getCookie_deleteCookie jar now cm.cookieName hwf hname
  simp only [CooldownManager.checkCooldown, hget]

/-! ## Lemmas: the jar written by each branch of `verifyPassword` -/

theorem verifyPassword_jar_empty (correct : JStr) (cm : CMData) (st : VState) :
    (verifyPassword [] correct cm st).jar = st.jar := rfl

theorem verifyPassword_jar_success (input : JStr) (cm : CMData) (st : VState)
    (hin : input ≠ []) :
    (verifyPassword input input cm st).jar
      = CooldownManager.clearCooldown cm st.jar := by
  simp [verifyPassword, hin, setVerifyingState, clearCooldownState]

theorem verifyPassword_jar_failed (input correct : JStr) (cm : CMData)
    (st : VState) (hin : input ≠ []) (hneq : input ≠ correct) :
    (verifyPassword input correct cm st).jar
      = CooldownManager.setCooldown cm st.jar st.now := by
  simp [verifyPassword, hin, hneq, setVerifyingState, startFrontendCooldownTimers]

/-! ## The claims -/

/-- C1, counterexample: with an empty entered password and an empty
expected password the two strings are equal, yet `verifyPassword` takes
the early `!inputPassword` return and never invokes `onSuccess`; so
"`onSuccess` if and only if the strings are equal" fails as stated. -/
theorem verifyPassword_empty_equal_counterexample :
    ¬(((verifyPassword [] [] cmX stEmpty).successCalled = true) ↔
      ([] : JStr) = ([] : JStr)) := by decide

/-- C1, amended: `verifyPassword` invokes the `onSuccess` callback if and
only if the entered password is non-empty and strictly equal (plaintext
string comparison) to the expected password. -/
theorem verifyPassword_onSuccess_iff (input correct : JStr) (cm : CMData)
    (st : VState) (h : st.successCalled = false) :
    ((verifyPassword input correct cm st).successCalled = true ↔
      (input ≠ [] ∧ input = correct)) := by
  by_cases hin : input = []
  · subst hin
    simp [verifyPassword, h]
  · by_cases heq : input = correct
    · subst heq
      simp [verifyPassword, hin, setVerifyingState, clearCooldownState]
    · simp [verifyPassword, hin, heq, setVerifyingState,
        startFrontendCooldownTimers, h]

/-- C1, witness: a concrete successful attempt invokes the callback. -/
theorem verifyPassword_onSuccess_iff_witness :
    (verifyPassword "x".toList "x".toList cmX stEmpty).successCalled = true :=
  (verifyPassword_onSuccess_iff "x".toList "x".toList cmX stEmpty rfl).mpr
    ⟨by decide, rfl⟩

/-- C2, counterexample: with an active cooldown cookie already stored and
an empty input, `verifyPassword` returns leaving the jar untouched, so
`checkCooldown` still reports an active cooldown although the attempt was
not a failed one (the input was empty); "active if and only if the attempt
failed" fails as stated. -/
theorem cooldown_active_without_failed_attempt :
    (CooldownManager.checkCooldown cmX.cookieName
      (verifyPassword [] "x".toList cmX stCool).jar stCool.now).1 = true
    ∧ ¬(([] : JStr) ≠ [] ∧ ([] : JStr) ≠ "x".toList) := by
  exact ⟨by decide, by decide⟩

/-- C2, amended: provided no cooldown is active immediately before the
call, after `verifyPassword` returns `checkCooldown` (at the same instant,
positive `cooldownSeconds`, well-formed jar and cookie name) reports an
active cooldown iff the attempt failed (non-empty input unequal to the
expected password); on a failed attempt the remaining seconds equal
`cooldownSeconds`, and on a successful attempt the cooldown cookie is
cleared. -/
theorem verifyPassword_cooldown_spec (input correct : JStr) (cm : CMData)
    (st : VState) (hsec : 0 < cm.cooldownSeconds)
    (hwf : ∀ e ∈ st.jar, EntryWF e = true)
    (hname : nameOK cm.cookieName = true)
    (hpre : (CooldownManager.checkCooldown cm.cookieName st.jar st.now).1 = false) :
    ((CooldownManager.checkCooldown cm.cookieName
        (verifyPassword input correct cm st).jar st.now).1 = true ↔
      (input ≠ [] ∧ input ≠ correct))
    ∧ (input ≠ [] → input ≠ correct →
        (CooldownManager.checkCooldown cm.cookieName
          (verifyPassword input correct cm st).jar st.now).2 = cm.cooldownSeconds)
    ∧ (input ≠ [] → input = correct →
        getCookie (documentCookie st.now (verifyPassword input correct cm st).jar)
          cm.cookieName = none) := by
  by_cases hin : input = []
  · subst hin
    rw [verifyPassword_jar_empty]
    refine ⟨?_, fun hne => absurd rfl hne, fun hne => absurd rfl hne⟩
    rw [hpre]
    simp
  · by_cases heq : input = correct
    · subst heq
      rw [verifyPassword_jar_success input cm st hin]
      have hget : getCookie
          (documentCookie st.now (CooldownManager.clearCooldown cm st.jar))
          cm.cookieName = none := by
        rw [CooldownManager.clearCooldown]
        exact getCookie_deleteCookie st.jar st.now cm.cookieName hwf hname
      have hclr := checkCooldown_clearCooldown cm st.jar st.now hwf hname
      refine ⟨?_, fun _ hne => absurd rfl hne, fun _ _ => hget⟩
      rw [hclr]
      simp
    · rw [verifyPassword_jar_failed input correct cm st hin heq]
      have hset := checkCooldown_setCooldown cm st.jar st.now hwf hname hsec
      refine ⟨?_, fun _ _ => ?_, fun _ hc => absurd hc heq⟩
      · rw [hset]
        simp [hin, heq]
      · rw [hset]

/-- C2, witness: a concrete failed attempt on an empty jar activates a
cooldown of exactly `cooldownSeconds` seconds. -/
theorem verifyPassword_cooldown_spec_witness :
    ((CooldownManager.checkCooldown cmX.cookieName
        (verifyPassword "w".toList "x".toList cmX stEmpty).jar stEmpty.now).1 = true ↔
      ("w".toList ≠ ([] : JStr) ∧ "w".toList ≠ "x".toList))
    ∧ ("w".toList ≠ ([] : JStr) → "w".toList ≠ "x".toList →
        (CooldownManager.checkCooldown cmX.cookieName
          (verifyPassword "w".toList "x".toList cmX stEmpty).jar stEmpty.now).2
          = cmX.cooldownSeconds)
    ∧ ("w".toList ≠ ([] : JStr) → "w".toList = "x".toList →
        getCookie (documentCookie stEmpty.now
          (verifyPassword "w".toList "x".toList cmX stEmpty).jar)
          cmX.cookieName = none) :=
  verifyPassword_cooldown_spec "w".toList "x".toList cmX stEmpty (by decide)
    (by decide) (by decide) (by decide)

/-- C3: for a stored cooldown value that is the decimal rendering of a
millisecond timestamp `t` (or an absent cookie), `checkCooldown` reports
`(true, ceil((t - now) / 1000))` exactly when `t` is strictly in the
future, and `(false, 0)` when the cookie is absent or `t` is not in the
future; `(t - now + 999) / 1000` is the ceiling of `(t - now) / 1000`. -/
theorem checkCooldown_timestamp_spec (name : JStr) (jar : List CookieEntry)
    (now t : Nat) :
    (getCookie (documentCookie now jar) name = some (numToStr t) →
      ((now < t → CooldownManager.checkCooldown name jar now
          = (true, (t - now + 999) / 1000)) ∧
       (t ≤ now → CooldownManager.checkCooldown name jar now = (false, 0))))
    ∧ (getCookie (documentCookie now jar) name = none →
        CooldownManager.checkCooldown name jar now = (false, 0)) := by
  constructor
  · intro hget
    have hne := numToStr_ne_nil t
    constructor
    · intro hlt
      have hlt2 : (now : Int) < (t : Int) := by exact_mod_cast hlt
      simp only [CooldownManager.checkCooldown, hget, if_neg hne,
        parseJSInt_numToStr, if_pos hlt2]
      have harith : (((t : Int) - (now : Int)).toNat + 999) / 1000
          = (t - now + 999) / 1000 := by omega
      rw [harith]
    · intro hle
      have hnlt : ¬((now : Int) < (t : Int)) := by omega
      simp only [CooldownManager.checkCooldown, hget, if_neg hne,
        parseJSInt_numToStr, if_neg hnlt]
  · intro hget
    simp only [CooldownManager.checkCooldown, hget]

/-- C3, witness: timestamp 5000 read at time 1000 leaves a cooldown of
`ceil(4000 / 1000) = 4` seconds. -/
theorem checkCooldown_timestamp_spec_witness :
    CooldownManager.checkCooldown "cd".toList
      [⟨"cd".toList, numToStr 5000, 10000⟩] 1000 = (true, 4) := by
  have h := ((checkCooldown_timestamp_spec "cd".toList
    [⟨"cd".toList, numToStr 5000, 10000⟩] 1000 5000).1 (by decide)).1 (by decide)
  simpa using h

/-- C4, counterexample: the string the source assigns to `document.cookie`
differs from the spec's `name=value; expires=<UTC date>; path=/` format —
the source writes no space after the `';'` separators. -/
theorem setCookie_format_counterexample :
    setCookieAssignedString "n".toList "v".toList 0 1 (fun _ => "D".toList)
      ≠ cookieFormatSpec "n".toList "v".toList "D".toList := by decide

/-- C4, amended: for every name, value, and number of seconds, `setCookie`
writes exactly `name=value;expires=<UTC date>;path=/` (no space after the
`';'` separators), where the expiry date is the current time plus the
given seconds, rendered as a UTC date string. -/
theorem setCookie_format_amended (name value : JStr) (now seconds : Nat)
    (toUTC : Nat → JStr) :
    setCookieAssignedString name value now seconds toUTC
      = cookieFormatNoSpace name value (toUTC (now + seconds * 1000)) := rfl

/-- C5: when no value is stored under the key, or the stored string fails
to parse as JSON, `loadUnlockedState` returns the caller-supplied default
(and, being a total function, raises no error). -/
theorem loadUnlockedState_default_on_error {J : Type}
    (parseJson : JStr → Option J) (store : JStr → Option JStr) (key : JStr)
    (defaultValue : J)
    (h : store key = none ∨ ∃ s, store key = some s ∧ parseJson s = none) :
    loadUnlockedState parseJson store key defaultValue = defaultValue := by
  rcases h with h | ⟨s, hs, hp⟩
  · simp [loadUnlockedState, h]
  · by_cases hnil : s = []
    · simp [loadUnlockedState, hs, hnil]
    · simp [loadUnlockedState, hs, hnil, hp]

/-- C5, witness: an empty store yields the default. -/
theorem loadUnlockedState_default_on_error_witness :
    loadUnlockedState (fun _ => (none : Option Nat)) (fun _ => none)
      "k".toList 7 = 7 :=
  loadUnlockedState_default_on_error _ _ _ _ (Or.inl rfl)

/-- C6: loading after saving returns `JSON.parse (JSON.stringify state)`,
independent of the caller-supplied default, whenever the serialisation is
non-empty and parses back (as it does for every JSON-serialisable array or
object). -/
theorem load_after_save_roundtrip {J : Type} (parseJson : JStr → Option J)
    (stringifyJson : J → JStr) (store : JStr → Option JStr) (key : JStr)
    (state defaultValue v : J)
    (hparse : parseJson (stringifyJson state) = some v)
    (hne : stringifyJson state ≠ []) :
    loadUnlockedState parseJson (saveUnlockedState stringifyJson store key state)
      key defaultValue = v := by
  simp [loadUnlockedState, saveUnlockedState, hne, hparse]

/-- C6, witness: a concrete round trip through the store. -/
theorem load_after_save_roundtrip_witness :
    loadUnlockedState (fun _ => some 42)
      (saveUnlockedState (fun _ => ['j']) (fun _ => none) "k".toList 42)
      "k".toList 0 = 42 :=
  load_after_save_roundtrip (fun _ => some 42) (fun _ => ['j']) (fun _ => none)
    "k".toList 42 0 42 rfl (by decide)

/-- C7: when the single GET of `keys.json` fails, exactly one fetch was
issued, no retry occurs, `finalKey` remains unset, and the only state
change is the console error log entry. -/
theorem newpage_fetch_failure_logged_only (e : JStr) :
    (runNewpageScript (.error e)).finalKey = none
    ∧ (runNewpageScript (.error e)).fetchedUrls = ["../keys.json".toList]
    ∧ (runNewpageScript (.error e)).errorLog
        = ["加载 keys.json 出错:".toList ++ e] :=
  ⟨rfl, rfl, rfl⟩

/-- C8, counterexample: the name `"n"` and value `"v "` contain no `';'`
or `'='`, yet after `setCookie("n", "v ", seconds)` the source's
`getCookie("n")` returns `"v"` — its `trim()` strips the value's trailing
space — so the round trip fails as stated. -/
theorem cookie_roundtrip_counterexample :
    (∀ c ∈ "v ".toList, c ≠ ';' ∧ c ≠ '=')
    ∧ (∀ c ∈ "n".toList, c ≠ ';' ∧ c ≠ '=')
    ∧ getCookie (documentCookie 1 (setCookie [] 1 "n".toList "v ".toList 3))
        "n".toList ≠ some "v ".toList := by decide

/-- C8, amended: in a well-formed cookie store, for every cookie name with
no `';'`/`'='` and no leading whitespace, every value with no `';'` and no
trailing whitespace, and every positive expiry, `getCookie(name)` right
after `setCookie(name, value, seconds)` returns exactly `value`; and
`getCookie` returns `null` for any name not present in the store. -/
theorem cookie_roundtrip_amended (jar : List CookieEntry) (now : Nat)
    (name : JStr) (hwf : ∀ e ∈ jar, EntryWF e = true)
    (hname : nameOK name = true) :
    (∀ value seconds, ';' ∉ value → lastOK value = true → 0 < seconds →
      getCookie (documentCookie now (setCookie jar now name value seconds)) name
        = some value)
    ∧ ((∀ e ∈ jar, e.name ≠ name) →
        getCookie (documentCookie now jar) name = none) :=
  ⟨fun value seconds hsv hlast hsec =>
      getCookie_setCookie jar now name value seconds hwf hname hsv hlast hsec,
    fun habs => getCookie_absent jar now name hwf hname habs⟩

/-- C8, witness: a concrete round trip, and a concrete absent lookup. -/
theorem cookie_roundtrip_amended_witness :
    getCookie (documentCookie 1 (setCookie [] 1 "n".toList "v".toList 3))
      "n".toList = some "v".toList
    ∧ getCookie (documentCookie 1 ([] : List CookieEntry)) "n".toList = none := by
  have h := cookie_roundtrip_amended [] 1 "n".toList (by decide) (by decide)
  exact ⟨h.1 "v".toList 3 (by decide) (by decide) (by decide), h.2 (by decide)⟩

/-- C9: while `finalKey` is still `undefined` (the fetch has not
completed), `checkFinalPassword` never takes the success branch and never
schedules navigation to `/two/finalpage`, for every entered string,
because a string is never strictly equal to `undefined`. -/
theorem checkFinalPassword_undefined_never_succeeds (enteredKey : JStr) :
    (checkFinalPassword enteredKey none).successBranch = false
    ∧ (checkFinalPassword enteredKey none).navScheduledTo = none :=
  ⟨rfl, rfl⟩

/-- C10: a stored cooldown cookie value on which `parseInt` yields `NaN`
makes `checkCooldown` report `(false, 0)`, exactly like an absent
cookie. -/
theorem checkCooldown_malformed_cookie (name : JStr) (jar : List CookieEntry)
    (now : Nat) (s : JStr)
    (hget : getCookie (documentCookie now jar) name = some s)
    (hparse : parseJSInt s = none) :
    CooldownManager.checkCooldown name jar now = (false, 0) := by
  simp only [CooldownManager.checkCooldown, hget]
  by_cases hs : s = []
  · simp [hs]
  · simp [hs, hparse]

/-- C10, witness: the non-numeric stored value `"abc"` yields no
cooldown. -/
theorem checkCooldown_malformed_cookie_witness :
    CooldownManager.checkCooldown "cd".toList
      [⟨"cd".toList, "abc".toList, 10000⟩] 1000 = (false, 0) :=
  checkCooldown_malformed_cookie "cd".toList
    [⟨"cd".toList, "abc".toList, 10000⟩] 1000 "abc".toList (by decide) (by decide)
